import Mathlib

/-!
# Verification of the oms-ws conversational relay backend

This file gives a shallow embedding, in Lean 4, of the parts of the
`oms-ws` TypeScript repository that the specification's claims are about:

* the WebSocket session/room registry (`src/websocket/server.ts`);
* the retrieval context assembler inside
  `OrchestratorService.processMessage` (`src/orchestrator/service.ts`);
* the embedding ingestion queue (`EmbeddingQueue` in `src/llm/openai.ts`,
  together with `EmbeddingService.embed` and `chunkText`);
* the tool dispatch in `OrchestratorService.executeFunction`;
* the tool-gating heuristic and the cancellation path of a turn.

Modelling conventions:

* JavaScript `Map`s and plain objects used as dictionaries are modelled by
  insertion-ordered association lists (`List (String × α)`) whose `aset`
  updates a present key in place (JS `Map.set` keeps the original insertion
  position) and appends an absent key at the end, exactly as JS iteration
  order behaves.
* JavaScript `Set<string>` is modelled by a duplicate-free `List String`
  with `setAdd` appending only absent elements (JS insertion order).
* JavaScript numbers that are only ever compared (retrieval scores,
  the 0.3 relevance threshold, prices) are modelled as rationals (`Rat`);
  the embedded code performs no arithmetic on them that could distinguish
  binary floating point from rationals in the claims at issue.
* `async`/`await` effects are modelled by explicit outcome parameters
  (`Except`/oracle functions) and, where interleaving matters (the
  ingestion queue, turn cancellation), by small-step transition relations.
* Wall-clock values (`Date.now()`, ISO timestamps) are passed in as
  parameters; presentation-only strings that interpolate floating point
  numbers (for example `toFixed(2)` cart messages) are carried as their
  numeric fields instead, since no claim inspects them.
-/

namespace OmsWs

/-! ## Association lists with JavaScript `Map`/object-dictionary semantics -/

/-- Lookup in an insertion-ordered association list (JS `Map.get` /
`obj[key]`): the first binding of the key, if any. -/
def alookup {α : Type} : List (String × α) → String → Option α
  | [], _ => none
  | (k, v) :: rest, key => if k = key then some v else alookup rest key

/-- JS `Map.set` / `obj[key] = v`: update a present key in place (keeping
its insertion position), else append the new binding at the end. -/
def aset {α : Type} : List (String × α) → String → α → List (String × α)
  | [], key, v => [(key, v)]
  | (k, w) :: rest, key, v =>
      if k = key then (key, v) :: rest else (k, w) :: aset rest key v

/-- JS `Map.delete` / `delete obj[key]`: remove the key's binding. -/
def adelete {α : Type} : List (String × α) → String → List (String × α)
  | [], _ => []
  | (k, v) :: rest, key =>
      if k = key then adelete rest key else (k, v) :: adelete rest key

/-- JS `Map.values()` in insertion order. -/
def avalues {α : Type} (m : List (String × α)) : List α :=
  m.map Prod.snd

/-- JS `Set.add`: append the element only if absent. -/
def setAdd (l : List String) (x : String) : List String :=
  if x ∈ l then l else l ++ [x]

structure ServerState where
  clients : List (String × List String)
  rooms : List (String × List String)
  roomUsers : List (String × String)
deriving DecidableEq, Repr

/-- `joinRoom(address, roomId)` (server.ts:125-134): no-op for unknown
clients; otherwise adds the room to the client's room set, creates the room
entry if absent, and adds the address to the room's member set. -/
def joinRoom (s : ServerState) (address roomId : String) : ServerState :=
  match alookup s.clients address with
  | none => s
  | some clientRooms =>
      { s with
        clients := aset s.clients address (setAdd clientRooms roomId)
        rooms :=
          match alookup s.rooms roomId with
          | none => aset s.rooms roomId (setAdd [] address)
          | some members => aset s.rooms roomId (setAdd members address) }

/-- JS truthiness of an optional string (`if (x)`): absent and the empty
string are falsy. -/
def strTruthy : Option String → Bool
  | none => false
  | some str => str ≠ ""

/-- The `JoinChat` case of `handleMessage` (server.ts:99-107): join the
room, then — whenever the payload carries a truthy `user_id` —
**unconditionally** `roomUsers.set(chat_id, user_id)`. -/
def handleJoinChat (s : ServerState) (address chatId : String)
    (userId : Option String) : ServerState :=
  let s₁ := joinRoom s address chatId
  if strTruthy userId then
    { s₁ with roomUsers := aset s₁.roomUsers chatId (userId.getD "") }
  else s₁

/-- The owner-association prefix of `handleChatMessage` (server.ts:136-141):
set `roomUsers` only if `data.user_id` is truthy and the chat id is not
already recorded (`!this.roomUsers.has(...)`). -/
def chatAssociateOwner (s : ServerState) (chatId : String)
    (userId : Option String) : ServerState :=
  if strTruthy userId ∧ (alookup s.roomUsers chatId).isNone then
    { s with roomUsers := aset s.roomUsers chatId (userId.getD "") }
  else s

/-- One iteration of the `cleanup` loop (server.ts:200-208): remove the
address from the room's member set and delete the room entry when the set
becomes empty. -/
def removeFromRoom (rooms : List (String × List String))
    (roomId address : String) : List (String × List String) :=
  match alookup rooms roomId with
  | none => rooms
  | some members =>
      let members' := members.erase address
      if members' = [] then adelete rooms roomId
      else aset rooms roomId members'

/-- `cleanup(address)` (server.ts:195-211): on disconnect, remove the
client from every room it had joined (deleting rooms that become empty)
and drop the client record. -/
def cleanup (s : ServerState) (address : String) : ServerState :=
  match alookup s.clients address with
  | none => s
  | some clientRooms =>
      { clients := adelete s.clients address
        rooms := clientRooms.foldl
          (fun rs roomId => removeFromRoom rs roomId address) s.rooms
        roomUsers := s.roomUsers }

/-! ## Retrieval context assembler (`processMessage`, service.ts:279-368)

A vector-store match as consumed by the assembler: its id, relevance score
(a JS number, modelled as `Rat`; the assembler only compares scores), and
the metadata flags the assembler reads.  The metadata `text`/`role` fields
feed only the rendered context section and are omitted. -/

structure RMatch where
  id : String
  score : Rat
  isProfile : Bool
  isPreference : Bool
deriving DecidableEq, Repr

/-- Stable insertion step for sorting by score descending: the inserted
element goes before the first strictly smaller score, after equal ones that
were already placed — matching the stable JS
`sort((a, b) => (b.score || 0) - (a.score || 0))`. -/
def insertByScoreDesc (x : RMatch) : List RMatch → List RMatch
  | [] => [x]
  | y :: ys =>
      if y.score ≤ x.score then x :: y :: ys else y :: insertByScoreDesc x ys

/-- Stable sort by score descending (`.sort((a, b) => (b.score || 0) -
(a.score || 0))` on service.ts:311 and 317). -/
def sortByScoreDesc : List RMatch → List RMatch
  | [] => []
  | x :: xs => insertByScoreDesc x (sortByScoreDesc xs)

/-- `bestById` (service.ts:300-304): deduplicate `merged` by id keeping the
higher score (`if (!prev || m.score > prev.score) bestById.set(m.id, m)`),
in a JS `Map`, so first-insertion order is kept on updates. -/
def bestById (merged : List RMatch) : List (String × RMatch) :=
  merged.foldl
    (fun m x =>
      match alookup m x.id with
      | none => aset m x.id x
      | some prev => if prev.score < x.score then aset m x.id x else m)
    []

/-- `deduped = Array.from(bestById.values())` (service.ts:305). -/
def dedupeById (merged : List RMatch) : List RMatch :=
  avalues (bestById merged)

/-- The relevance threshold of service.ts:307 (`const threshold = 0.3`). -/
def ragThreshold : Rat := mkRat 3 10

/-- `deduped.filter(r => r.score >= threshold)` (service.ts:308); in the
embedding every score is a number, so the `typeof` guard is always taken. -/
def thresholdFiltered (deduped : List RMatch) : List RMatch :=
  deduped.filter (fun r => ragThreshold ≤ r.score)

/-- `filtered` after the fallback (service.ts:308-313): if fewer than 3
matches pass the threshold, fall back to the top `min 3 deduped.length`
matches by score. -/
def filteredWithFallback (deduped : List RMatch) : List RMatch :=
  let f := thresholdFiltered deduped
  if f.length < 3 then (sortByScoreDesc deduped).take (min 3 deduped.length)
  else f

/-- `profileTop` (service.ts:315-318): the top 3 profile-flagged matches by
score.  In the fallback branch the in-place JS `sort` has already reordered
`deduped` itself; `dedupedCur` is the array `profileTop` reads. -/
def profileTopFrom (dedupedCur : List RMatch) : List RMatch :=
  (sortByScoreDesc (dedupedCur.filter (fun r => r.isProfile))).take 3

/-- One `finalMap.set(m.id, m)` pass over a list (service.ts:319-320). -/
def insertAllById (m : List (String × RMatch)) (l : List RMatch) :
    List (String × RMatch) :=
  l.foldl (fun acc x => aset acc x.id x) m

/-- The deduplicated candidate set of a turn (service.ts:298-305):
general-query results concatenated with profile-query results, deduplicated
by id keeping the higher score. -/
def dedupedOf (results profileResults : List RMatch) : List RMatch :=
  dedupeById (results ++ profileResults)

/-- The array `deduped` refers to when `profileTop` is computed: the
in-place `sort` ran exactly when the fallback branch was taken. -/
def dedupedCurOf (results profileResults : List RMatch) : List RMatch :=
  let deduped := dedupedOf results profileResults
  if (thresholdFiltered deduped).length < 3 then sortByScoreDesc deduped
  else deduped

/-- The turn's `profileTop` (service.ts:314-318). -/
def profileTopOf (results profileResults : List RMatch) : List RMatch :=
  profileTopFrom (dedupedCurOf results profileResults)

/-- The values of `finalMap` before the final `slice(0, topK)`
(service.ts:319-321): `filtered` then `profileTop` inserted into a JS
`Map` keyed by id. -/
def finalMapValuesOf (results profileResults : List RMatch) : List RMatch :=
  avalues (insertAllById []
    (filteredWithFallback (dedupedOf results profileResults) ++
      profileTopOf results profileResults))

/-- `finalList` (service.ts:321): the merged map's values, cut to the
general query's `topK = 15`.  This is the set handed to context rendering
(service.ts:323-359). -/
def finalRetrievedList (results profileResults : List RMatch) : List RMatch :=
  (finalMapValuesOf results profileResults).take 15

/-- The profile-focused second query pass (service.ts:288-296): the
`query({..., topK: 10, filter: {isProfile: true}})` call is wrapped in
`try { ... } catch {}`, so on failure `profileResults` keeps its initial
value `[]`.  The query outcome (the awaited promise) is the argument. -/
def profileQueryPass (outcome : Except Unit (List RMatch)) : List RMatch :=
  match outcome with
  | .ok l => l
  | .error _ => []

/-- Modelled from the spec: the behaviour §4.3 ascribes to a
query-with-filter failure — "retried once without the filter, with
in-process filtering substituted".  No such retry exists in
`processMessage` (the `catch {}` at service.ts:296 swallows the failure);
this definition captures the claimed behaviour for comparison:
`unfilteredRetry` is what the retried, unfiltered `query` would return,
and the in-process substitute keeps its `isProfile`-flagged matches. -/
def profileQueryPassSpec (outcome : Except Unit (List RMatch))
    (unfilteredRetry : List RMatch) : List RMatch :=
  match outcome with
  | .ok l => l
  | .error _ => unfilteredRetry.filter (fun r => r.isProfile)

/-! ## Word-boundary keyword matching (JS `\b(w1|w2|...)\b` regex `test`)

`service.ts` gates tools with
`/\b(summarize|summary|...)\b/.test(lowered)` and `EmbeddingQueue.process`
tags chunks with similar phrase regexes.  The embedding spells out the
regex semantics: the test succeeds iff some alternative occurs in the
string with no word character (`[A-Za-z0-9_]`, the JS `\w`) adjacent on
either side. -/

/-- JS regex word character `\w` = `[A-Za-z0-9_]`. -/
def isWordChar (c : Char) : Bool :=
  c.isAlpha || c.isDigit || c = '_'

/-- A `\b` boundary against an adjacent character (`none` = string edge). -/
def boundaryOk : Option Char → Bool
  | none => true
  | some c => !isWordChar c

/-- Does keyword `kw` occur at position `i` of `cs`, delimited by `\b` on
both sides? -/
def matchKeywordAt (cs : List Char) (i : Nat) (kw : List Char) : Bool :=
  decide ((cs.drop i).take kw.length = kw) &&
    (if i = 0 then true else boundaryOk (cs.get? (i - 1))) &&
    boundaryOk (cs.get? (i + kw.length))

/-- `new RegExp("\\b(" + alternatives + ")\\b").test(cs)`: some alternative
occurs at some position with word boundaries. -/
def wordListMatch (kws : List (List Char)) (cs : List Char) : Bool :=
  (List.range (cs.length + 1)).any (fun i =>
    kws.any (fun kw => matchKeywordAt cs i kw))

/-- `content.toLowerCase()` as a character list. -/
def lowerChars (s : String) : List Char :=
  s.data.map Char.toLower

/-- The alternatives of the document-task regex (service.ts:425). -/
def docTaskKeywords : List (List Char) :=
  ["summarize", "summary", "summarise", "explain", "analyze", "analyse",
   "document", "doc", "pdf", "csv", "xlsx", "txt"].map String.data

/-- `looksLikeDocTask` (service.ts:424-425): the lower-cased message
content matches the document-task heuristic regex. -/
def looksLikeDocTask (content : String) : Bool :=
  wordListMatch docTaskKeywords (lowerChars content)

/-- `hasSelectedDocs` (service.ts:426): `selectedDocuments` is an array
(`typeof length === 'number'`) and non-empty; `none` models an absent
parameter. -/
def hasSelectedDocs (selectedDocuments : Option (List String)) : Bool :=
  match selectedDocuments with
  | some l => decide (0 < l.length)
  | none => false

/-- `shouldUseFunctions` (service.ts:427): tools are enabled iff neither
the document-task heuristic nor explicit document selections apply. -/
def shouldUseFunctions (content : String)
    (selectedDocuments : Option (List String)) : Bool :=
  !(looksLikeDocTask content || hasSelectedDocs selectedDocuments)

/-- The declarative occurrence property the regex decides: `kw` appears as
a `\b`-delimited segment of `cs`. -/
def KeywordOccursIn (kw cs : List Char) : Prop :=
  ∃ pre post, cs = pre ++ kw ++ post ∧
    (∀ c, pre.getLast? = some c → isWordChar c = false) ∧
    (∀ c, post.head? = some c → isWordChar c = false)

/-! ## Embedding service helpers (src/services/embeddings.ts) -/

/-- JS `| 0`: coerce to a signed 32-bit integer (two's complement). -/
def toInt32 (n : Int) : Int :=
  ((n + 2 ^ 31) % 2 ^ 32) - 2 ^ 31

/-- One iteration of the `sha1` hash loop:
`hash = (hash << 5) - hash + charCode; hash |= 0` — the shift already
wraps to 32 bits in JS. -/
def sha1Step (h : Int) (code : Nat) : Int :=
  toInt32 (toInt32 (h * 32) - h + code)

/-- The lightweight `sha1` content hash (embeddings.ts): fold the step over
the code units (= scalar values for the ASCII text at issue), reinterpret
unsigned (`>>> 0`) and render lowercase hexadecimal. -/
def sha1 (input : String) : String :=
  let h := input.data.foldl (fun h c => sha1Step h c.toNat) 0
  "sha1_" ++ String.mk (Nat.toDigits 16 ((h % (2 : Int) ^ 32).toNat))

/-- `text.split(/\s+/)`: split on maximal whitespace runs, keeping empty
edge pieces exactly as the JS regex split does. -/
def splitWhitespaceAux : List Char → List Char → List String
  | [], acc => [String.mk acc.reverse]
  | c :: rest, acc =>
      if c.isWhitespace then
        String.mk acc.reverse ::
          splitWhitespaceAux (rest.dropWhile Char.isWhitespace) []
      else splitWhitespaceAux rest (c :: acc)
termination_by l _ => l.length
decreasing_by
  all_goals simp_wf
  exact Nat.lt_succ_of_le
    (List.Sublist.length_le (List.IsSuffix.sublist (List.dropWhile_suffix _)))

/-- `text.split(/\s+/)` on a string. -/
def splitWhitespaceJS (text : String) : List String :=
  splitWhitespaceAux text.data []

/-- The `while (i < words.length)` loop of `chunkText`: emit the next
`chunkSize`-word window and advance by `step` (the code's
`chunkSize - overlap`, or `chunkSize` when overlap is 0).  Every call the
code makes has `step ≥ 100`; the `max 1` below only guards termination and
coincides with `step` on all such calls. -/
def chunkTextLoop (chunkSize step : Nat) (words : List String) : List String :=
  if words = [] then []
  else
    String.intercalate " " (words.take chunkSize) ::
      chunkTextLoop chunkSize step (words.drop (max 1 step))
termination_by words.length
decreasing_by
  simp_wf
  have hw : 0 < words.length := List.length_pos.mpr (by assumption)
  omega

/-- `chunkText(text, opts)` (embeddings.ts:44-62): clamp the options
(`opts?.chunkSize || 800` into `[200, 1200]`, `opts?.overlap || 100` into
`[0, chunkSize / 2]`) and walk overlapping word windows. -/
def chunkTextWith (optChunkSize optOverlap : Option Nat) (text : String) :
    List String :=
  let cs0 := optChunkSize.getD 0
  let chunkSize := max 200 (min (if cs0 = 0 then 800 else cs0) 1200)
  let ov0 := optOverlap.getD 0
  let overlap := max 0 (min (if ov0 = 0 then 100 else ov0) (chunkSize / 2))
  let step := if 0 < overlap then chunkSize - overlap else chunkSize
  chunkTextLoop chunkSize step (splitWhitespaceJS text)

/-- `chunkText(text)` as called by `EmbeddingQueue.process`. -/
def chunkText (text : String) : List String :=
  chunkTextWith none none text

/-! ## Embedding ingestion queue (`EmbeddingQueue`, src/llm/openai.ts) -/

/-- An `EmbedJob` (openai.ts:409-416). -/
structure EmbedJob where
  userId : String
  chatId : String
  messageId : String
  role : String
  content : String
  createdAt : Option String
deriving DecidableEq, Repr

/-- The metadata attached to each upserted chunk vector
(openai.ts:475-486); the constant `tags: ['chat']` is omitted. -/
structure VecMeta where
  userId : String
  chatId : String
  messageId : String
  role : String
  createdAt : String
  isProfile : Bool
  isPreference : Bool
  hash : String
  text : String
deriving DecidableEq, Repr

/-- A vector as handed to `pinecone.upsert` (openai.ts:472-487). -/
structure PineVec where
  id : String
  values : List Rat
  metadata : VecMeta
deriving DecidableEq, Repr

/-- The outcome of one `embedder.embed(chunk)` call: a vector (possibly
empty — `EmbeddingService.embed` returns `{embedding: []}` on blank
input), or a thrown error (`EmbeddingService.embed` rethrows its axios
failure, embeddings.ts:36-40). -/
inductive EmbedOutcome where
  | ok (embedding : List Rat)
  | fail
deriving DecidableEq, Repr

/-- The personal-fact phrase alternatives of the `isProfile` regex
(openai.ts:469). -/
def profilePhrases : List (List Char) :=
  ["i am", "i\x27m", "i work at", "i own", "my company", "founder", "ceo",
   "cto", "owner", "co-founder"].map String.data

/-- The preference phrase alternatives of the `isPreference` regex
(openai.ts:470). -/
def preferencePhrases : List (List Char) :=
  ["i prefer", "my favorite", "i like", "i love", "i hate", "please use",
   "tone", "style"].map String.data

/-- Build the vector pushed for one successfully embedded chunk
(openai.ts:463-487): id `messageId_index_hash`, the heuristic profile and
preference flags, and the text truncated to 600 characters. -/
def mkChunkVec (job : EmbedJob) (now : String) (chunk : String)
    (index : Nat) (embedding : List Rat) : PineVec :=
  let hash := sha1 chunk
  let lowered := lowerChars chunk
  { id := job.messageId ++ "_" ++ toString index ++ "_" ++ hash
    values := embedding
    metadata :=
      { userId := job.userId
        chatId := job.chatId
        messageId := job.messageId
        role := job.role
        createdAt := job.createdAt.getD now
        isProfile := wordListMatch profilePhrases lowered
        isPreference := wordListMatch preferencePhrases lowered
        hash := hash
        text :=
          if 600 < chunk.length then String.mk (chunk.data.take 600) ++ "…"
          else chunk } }

/-- The `for (const chunk of chunks)` loop of `EmbeddingQueue.process`
(openai.ts:462-489): an empty embedding skips the chunk (`continue`,
without advancing `index`); a **thrown** `embed` failure propagates out of
`process` (`.error`), abandoning the job's remaining chunks; a non-empty
embedding pushes its vector and advances `index`. -/
def processChunks (emb : String → EmbedOutcome) (job : EmbedJob)
    (now : String) : List String → Nat → Except Unit (List PineVec)
  | [], _ => .ok []
  | chunk :: rest, index =>
      match emb chunk with
      | .fail => .error ()
      | .ok v =>
          if v.length = 0 then processChunks emb job now rest index
          else
            match processChunks emb job now rest (index + 1) with
            | .error e => .error e
            | .ok tail => .ok (mkChunkVec job now chunk index v :: tail)

/-- `EmbeddingQueue.process(job)` (openai.ts:456-494): blank content is a
no-op; otherwise run the chunk loop over `chunkText(job.content)`. -/
def processJob (emb : String → EmbedOutcome) (job : EmbedJob)
    (now : String) : Except Unit (List PineVec) :=
  if job.content.trim = "" then .ok []
  else processChunks emb job now (chunkText job.content) 0

/-- What reaches `pinecone.upsert` for a given chunk list: the batched
vectors when the loop finishes with a non-empty batch (openai.ts:491-493);
`none` when the batch is empty or the loop threw (the drain loop catches
the throw — openai.ts:445-447 — and no upsert happened). -/
def chunksUpsert (emb : String → EmbedOutcome) (job : EmbedJob)
    (now : String) (chunks : List String) : Option (List PineVec) :=
  match processChunks emb job now chunks 0 with
  | .error _ => none
  | .ok vectors => if vectors.length = 0 then none else some vectors

/-- The queue's observable state: the FIFO buffer, the `running` flag, the
jobs shifted and processed so far (with each job's success/failure), and a
ghost record of all jobs ever enqueued, in order. -/
structure QueueSt where
  queue : List EmbedJob
  running : Bool
  processed : List (EmbedJob × Bool)
  enqueued : List EmbedJob
deriving DecidableEq, Repr

/-- A fresh `EmbeddingQueue`. -/
def queueInit : QueueSt :=
  ⟨[], false, [], []⟩

/-- Interleaving semantics of `EmbeddingQueue` (openai.ts:429-454), with
per-job processing outcome given by the oracle `eff`:

* `enqueue`: `enqueue(job)` pushes onto the FIFO and calls `drain()`; if a
  drain loop was already running the call returns at the `if (this.running)
  return` guard (the flag stays `true`), otherwise the flag is set and the
  loop starts — either way `running` is `true` afterwards.
* `processOne`: the single drain loop shifts the head job and awaits
  `process(job)`; a failure is caught per job (openai.ts:445-447), so the
  step records the outcome and continues regardless of it.
* `drainDone`: with an empty buffer the loop exits and the `finally`
  clears `running`. -/
inductive QueueStep (eff : EmbedJob → Bool) : QueueSt → QueueSt → Prop
  | enqueue (s : QueueSt) (j : EmbedJob) :
      QueueStep eff s ⟨s.queue ++ [j], true, s.processed, s.enqueued ++ [j]⟩
  | processOne (s : QueueSt) (j : EmbedJob) (rest : List EmbedJob)
      (hq : s.queue = j :: rest) (hr : s.running = true) :
      QueueStep eff s ⟨rest, true, s.processed ++ [(j, eff j)], s.enqueued⟩
  | drainDone (s : QueueSt) (hq : s.queue = []) (hr : s.running = true) :
      QueueStep eff s ⟨[], false, s.processed, s.enqueued⟩

/-- States reachable from a fresh queue. -/
def QueueReach (eff : EmbedJob → Bool) (s : QueueSt) : Prop :=
  Relation.ReflTransGen (QueueStep eff) queueInit s

/-! ## Turn cancellation (`processMessage` / `cancel`, service.ts)

The model covers one turn of `processMessage` from the point where its
`AbortController` has been registered (service.ts:420-421) and the first
model call is outstanding, through the optional tool path and its
**summary** model call (service.ts:507-511), together with
`cancel(chatId)` (service.ts:616-622) racing against either call's
resolution.  Only the first call is given `controller.signal`
(service.ts:429-435); the summary call is issued without any abort
signal. -/

/-- `Role` (src/types/message.ts). -/
inductive Role where
  | system
  | user
  | assistant
  | function
deriving DecidableEq, Repr

/-- `ChatMessage` (src/types/message.ts). -/
structure ChatMessage where
  role : Role
  content : String
  name : Option String
deriving DecidableEq, Repr

/-- A part of the model response (openai.ts:345-360): optional narration
text and optional tool call (name and serialized arguments). -/
structure RespPart where
  text : Option String
  functionCall : Option (String × String)
deriving DecidableEq, Repr

/-- JS `text.trim()` for the whitespace at issue: drop whitespace from
both ends (spelled out so that it evaluates; Lean's own `String.trim`
agrees but is opaque to the kernel). -/
def jsTrim (s : String) : String :=
  String.mk
    (((s.data.dropWhile Char.isWhitespace).reverse.dropWhile
        Char.isWhitespace).reverse)

/-- JS `text.split(' ')`: cut at **every** single space, keeping empty
pieces (spelled out so that it evaluates; it matches `String.splitOn`). -/
def splitOnSpaceAux : List Char → List Char → List String
  | [], acc => [String.mk acc.reverse]
  | c :: rest, acc =>
      if c = ' ' then String.mk acc.reverse :: splitOnSpaceAux rest []
      else splitOnSpaceAux rest (c :: acc)

/-- JS `text.split(' ')` on a string. -/
def splitOnSpace (text : String) : List String :=
  splitOnSpaceAux text.data []

/-- The word-window loop of `streamTextResponse` (service.ts:920-938):
5-word chunks joined by spaces, each non-final chunk carrying a trailing
space. -/
def streamChunksAux (ws : List String) : List String :=
  if ws = [] then []
  else
    (String.intercalate " " (ws.take 5) ++ if 5 < ws.length then " " else "") ::
      streamChunksAux (ws.drop 5)
termination_by ws.length
decreasing_by
  simp_wf
  have hw : 0 < ws.length := List.length_pos.mpr (by assumption)
  omega

/-- The `TextStream` chunk payloads `streamTextResponse(chatId, text, ws)`
broadcasts for one text (`text.split(' ')` then the word-window loop). -/
def streamChunksOf (text : String) : List String :=
  streamChunksAux (splitOnSpace text)

/-- `intentAnalysis` after the parts loop (service.ts:448-460): the last
part with non-blank text, if any (`if (part.text && part.text.trim())`). -/
def lastNonemptyText (parts : List RespPart) : Option String :=
  parts.foldl
    (fun acc p =>
      match p.text with
      | some t => if jsTrim t = "" then acc else some t
      | none => acc)
    none

/-- `functionToCall` after the parts loop (service.ts:456-459): the last
part carrying a `functionCall`, if any. -/
def lastFunctionCall (parts : List RespPart) : Option (String × String) :=
  parts.foldl
    (fun acc p =>
      match p.functionCall with
      | some fc => some fc
      | none => acc)
    none

/-- All `TextStream` chunks a parts loop broadcasts
(service.ts:448-454 for the first call, service.ts:515-521 for the
summary call): each non-blank text part is streamed. -/
def streamedOfParts (parts : List RespPart) : List String :=
  parts.flatMap
    (fun p =>
      match p.text with
      | some t => if jsTrim t = "" then [] else streamChunksOf t
      | none => [])

/-- History appended after a resolved first call on the no-tool path
(service.ts:546-553): the intent analysis becomes the assistant's final
message. -/
def appendedHistoryOfParts (parts : List RespPart) : List ChatMessage :=
  match lastNonemptyText parts with
  | some t => [⟨Role.assistant, t, none⟩]
  | none => []

/-- `assistantContent` on the tool path (service.ts:473):
`intentAnalysis || "I\x27m using the ... tool to help with your request."`. -/
def assistantContentOf (parts : List RespPart) (fnName : String) : String :=
  (lastNonemptyText parts).getD
    ("I\x27m using the " ++ fnName ++ " tool to help with your request.")

/-- History appended on the tool path before the summary call
(service.ts:493-502): the assistant rationale and the function-result
record (`content: JSON.stringify(toolResult)`, carried here as the
serialized string). -/
def toolCallHistory (parts : List RespPart) (fnName toolResultStr : String) :
    List ChatMessage :=
  [⟨Role.assistant, assistantContentOf parts fnName, none⟩,
   ⟨Role.function, toolResultStr, some fnName⟩]

/-- History appended by the summary-call parts loop
(service.ts:517-526): every non-blank text part is persisted as an
assistant message. -/
def summaryHistoryOfParts (parts : List RespPart) : List ChatMessage :=
  (parts.filterMap
      (fun p =>
        match p.text with
        | some t => if jsTrim t = "" then none else some t
        | none => none)).map
    (fun t => ⟨Role.assistant, t, none⟩)

/-- Which model call of the turn is outstanding: the first (analysis)
call, the tool path's summary call, or neither (turn finished, with the
flag recording whether the first call failed with the cancellation
error). -/
inductive TurnPhase where
  | calling
  | summarizing
  | done (aborted : Bool)
deriving DecidableEq, Repr

/-- Observable state of one turn for one room: the outstanding-call phase,
the abort flag of the turn's `AbortController`'s signal, whether
`abortControllers` still maps the room id to that controller, the room's
history, and the `TextStream` chunks broadcast so far for this turn. -/
structure TurnSt where
  phase : TurnPhase
  ctrlAborted : Bool
  mapHasCtrl : Bool
  history : List ChatMessage
  streamed : List String
deriving DecidableEq, Repr

/-- `OrchestratorService.cancel(chatId)` (service.ts:616-622): if the map
holds a controller for the room, abort its signal and delete the entry;
otherwise do nothing. -/
def cancelTurn (s : TurnSt) : TurnSt :=
  if s.mapHasCtrl then { s with ctrlAborted := true, mapHasCtrl := false }
  else s

/-- Interleaving of a turn's outstanding model calls with
`stop_generation` handling:

* `stopGen`: the registry receives `stop_generation` for the room and runs
  `cancel(chatId)` (server.ts:114-118, handler.ts:40-42).
* `resolveOkNoTool`: the outstanding **first** `openai.call` — the only
  call given `controller.signal` (service.ts:429-435) — resolves normally.
  Modelled from the spec (§6): the model provider "must honor cancellation
  by raising a cancellation-specific failure", so normal resolution
  requires a non-aborted signal (axios rejects a request whose signal is
  aborted).  With no tool selected, the parts loop streams the narration
  and appends the assistant message; the turn is done.
* `resolveOkTool`: the first call resolves normally (same signal
  condition) selecting a tool: the narration streams, the tool runs, the
  rationale and function-result messages are appended
  (service.ts:493-502), and the **summary** call is issued
  (service.ts:507-511).
* `resolveAborted`: the outstanding first call fails with the cancellation
  failure; `processMessage` jumps to its `catch` (service.ts:572), so none
  of this attempt's parts are streamed and nothing this attempt produced
  is appended — history already appended stays.  (The recovery call the
  `catch` makes is a distinct, later attempt.)
* `resolveSummary`: the outstanding summary call resolves.  It carries
  **no abort signal** (service.ts:507-511 passes none), so its resolution
  is possible regardless of `ctrlAborted` — `cancel` cannot fail it — and
  its parts loop streams the summary text and appends it to history
  (service.ts:515-526).  Other failure modes of the summary call
  (timeouts) go to the turn's `catch` and are not modelled. -/
inductive TurnStep : TurnSt → TurnSt → Prop
  | stopGen (s : TurnSt) : TurnStep s (cancelTurn s)
  | resolveOkNoTool (s : TurnSt) (parts : List RespPart)
      (hphase : s.phase = TurnPhase.calling) (habort : s.ctrlAborted = false)
      (hnotool : lastFunctionCall parts = none) :
      TurnStep s
        { s with
          phase := TurnPhase.done false
          streamed := s.streamed ++ streamedOfParts parts
          history := s.history ++ appendedHistoryOfParts parts }
  | resolveOkTool (s : TurnSt) (parts : List RespPart)
      (fnName fnArgs toolResultStr : String)
      (hphase : s.phase = TurnPhase.calling) (habort : s.ctrlAborted = false)
      (hfn : lastFunctionCall parts = some (fnName, fnArgs)) :
      TurnStep s
        { s with
          phase := TurnPhase.summarizing
          streamed := s.streamed ++ streamedOfParts parts
          history := s.history ++ toolCallHistory parts fnName toolResultStr }
  | resolveAborted (s : TurnSt)
      (hphase : s.phase = TurnPhase.calling) (habort : s.ctrlAborted = true) :
      TurnStep s { s with phase := TurnPhase.done true }
  | resolveSummary (s : TurnSt) (parts : List RespPart)
      (hphase : s.phase = TurnPhase.summarizing) :
      TurnStep s
        { s with
          phase := TurnPhase.done false
          streamed := s.streamed ++ streamedOfParts parts
          history := s.history ++ summaryHistoryOfParts parts }

/-! ## Tool dispatch (`executeFunction`, service.ts:638-838) -/

/-- The structured error payload tool execution returns instead of
throwing (service.ts:689-695 and 830-837). -/
structure ToolErrorInfo where
  error : Bool
  function : String
  message : String
  details : String
deriving DecidableEq, Repr

/-- What `browsePublishers` resolves to (tools/publishers.ts): the fields
`executeFunction` reads (the full publisher list is broadcast to the
transport and not returned to the model). -/
structure BrowseResult where
  summary : String
  totalCount : Nat
deriving DecidableEq, Repr

/-- A cart item as read by the cart tools (name, price, quantity; prices
are only summed and compared, modelled as `Rat`). -/
structure CartItem where
  name : String
  price : Rat
  quantity : Nat
deriving DecidableEq, Repr

/-- The value `executeFunction` returns into the turn (the UI-facing
message strings that merely interpolate formatted floats are carried as
their numeric fields). -/
inductive ToolResult where
  | browseSummary (summary : String) (count : Nat) (message : String)
  | cartSummary (totalItems totalQuantity : Nat) (totalPrice : Rat)
      (isEmpty : Bool)
  | addedToCart (name : String) (price : Rat) (quantity : Nat)
  | paymentInitiated (totalAmount : Rat) (itemCount : Nat)
  | toolError (e : ToolErrorInfo)
deriving DecidableEq, Repr

/-- The external inputs of one `executeFunction` call: the
`browsePublishers` back-end outcome, `cartData?.items` from the message
context, `functionCall.args.cartItems`, the `addToCart` args and the
`processPayment` cart items. -/
structure ToolEnv where
  browseOutcome : Except String BrowseResult
  cartDataItems : Option (List CartItem)
  argsCartItems : Option (List CartItem)
  addArgs : CartItem
  paymentItems : List CartItem

/-- JS `item.quantity || 1`. -/
def qtyOrOne (q : Nat) : Nat :=
  if q = 0 then 1 else q

/-- `itemsToUse` for `viewCart` (service.ts:703-709): prefer the non-empty
message-context cart, else non-empty args, else empty. -/
def itemsToUse (env : ToolEnv) : List CartItem :=
  match env.cartDataItems with
  | some items =>
      if 0 < items.length then items
      else
        match env.argsCartItems with
        | some ci => if 0 < ci.length then ci else []
        | none => []
  | none =>
      match env.argsCartItems with
      | some ci => if 0 < ci.length then ci else []
      | none => []

/-- `executeFunction(functionCall, ...)` (service.ts:638-838): dispatch on
the selected tool name.  Every branch returns a value — the
`browsePublishers` branch converts its back-end failure into a structured
error result (service.ts:687-695), and the `default` branch returns the
unknown-function error object (service.ts:830-837). -/
def executeFunction (name : String) (env : ToolEnv) : ToolResult :=
  if name = "browsePublishers" then
    match env.browseOutcome with
    | .ok r =>
        .browseSummary r.summary r.totalCount
          "Full results sent to user interface"
    | .error msg =>
        .toolError
          ⟨true, "browsePublishers", "Failed to fetch publishers: " ++ msg,
            "The publisher search service encountered an error. Please try again later or adjust your search criteria."⟩
  else if name = "viewCart" then
    let items := itemsToUse env
    .cartSummary items.length
      (items.foldl (fun acc i => acc + qtyOrOne i.quantity) 0)
      (items.foldl (fun acc i => acc + i.price * (qtyOrOne i.quantity : Rat)) 0)
      (items.length = 0)
  else if name = "addToCart" then
    .addedToCart env.addArgs.name env.addArgs.price
      (qtyOrOne env.addArgs.quantity)
  else if name = "processPayment" then
    .paymentInitiated
      (env.paymentItems.foldl
        (fun acc i => acc + i.price * (i.quantity : Rat)) 0)
      env.paymentItems.length
  else
    .toolError
      ⟨true, name, "Unknown function: " ++ name,
        "This function is not available in the system."⟩

/-- JSON string escaping as used by `JSON.stringify` for the characters
occurring in the embedded strings. -/
def jsonEscapeChar (c : Char) : String :=
  if c = '"' then "\\\""
  else if c = '\\' then "\\\\"
  else if c = '\n' then "\\n"
  else if c = '\r' then "\\r"
  else if c = '\t' then "\\t"
  else String.mk [c]

/-- JSON rendering of a string value. -/
def renderJsonStr (s : String) : String :=
  "\"" ++ String.join (s.data.map jsonEscapeChar) ++ "\""

/-- Stand-in decimal rendering for a JS number; exact float formatting is
not modelled and no claim depends on it. -/
def renderRat (r : Rat) : String :=
  if r.den = 1 then toString r.num
  else toString r.num ++ "/" ++ toString r.den

/-- `JSON.stringify(toolResult, null, 2)` (service.ts:477-479), the
`formattedResult` of the summary step; exact for the structured error
values, whose fields are booleans and strings. -/
def renderToolResult : ToolResult → String
  | .toolError e =>
      "\x7b\n  \"error\": " ++ (if e.error then "true" else "false") ++
        ",\n  \"function\": " ++ renderJsonStr e.function ++
        ",\n  \"message\": " ++ renderJsonStr e.message ++
        ",\n  \"details\": " ++ renderJsonStr e.details ++ "\n\x7d"
  | .browseSummary s c m =>
      "\x7b\n  \"summary\": " ++ renderJsonStr s ++
        ",\n  \"count\": " ++ toString c ++
        ",\n  \"message\": " ++ renderJsonStr m ++ "\n\x7d"
  | .cartSummary ti tq tp ie =>
      "\x7b\n  \"summary\": \x7b\n    \"totalItems\": " ++ toString ti ++
        ",\n    \"totalQuantity\": " ++ toString tq ++
        ",\n    \"totalPrice\": " ++ renderRat tp ++
        ",\n    \"isEmpty\": " ++ (if ie then "true" else "false") ++
        "\n  \x7d\n\x7d"
  | .addedToCart n p q =>
      "\x7b\n  \"success\": true,\n  \"message\": " ++
        renderJsonStr ("Added " ++ n ++ " to cart") ++
        ",\n  \"item\": \x7b\n    \"name\": " ++ renderJsonStr n ++
        ",\n    \"price\": " ++ renderRat p ++
        ",\n    \"quantity\": " ++ toString q ++ "\n  \x7d\n\x7d"
  | .paymentInitiated ta ic =>
      "\x7b\n  \"success\": true,\n  \"message\": \"Payment processing initiated\",\n  \"totalAmount\": " ++
        renderRat ta ++ ",\n  \"itemCount\": " ++ toString ic ++ "\n\x7d"

/-- The summary-step user message the turn pushes for **any** tool result
(service.ts:487-491): the result is formatted and embedded in the standard
template, with no special-casing of error results. -/
def summaryUserMessage (name : String) (result : ToolResult) : ChatMessage :=
  ⟨Role.user,
    "The " ++ name ++ " function returned: " ++ renderToolResult result ++
      ". Please summarize the results.",
    none⟩

/-! ## Concrete instances used by counterexamples and witnesses -/

/-- A registry state with one connected client, one room it joined, and a
recorded owner, for exercising the owner-association paths. -/
def c1WitnessState : ServerState :=
  ⟨[("addr", ["room1"])], [("room1", ["addr"])], [("room1", "alice")]⟩

/-- A registry state where room `room1` has a second member besides the
disconnecting client. -/
def c2WitnessState : ServerState :=
  ⟨[("addr", ["room1"])], [("room1", ["addr", "bob"])], []⟩

/-- Two candidates, both scoring below the 0.3 threshold. -/
def c3WitnessDeduped : List RMatch :=
  [⟨"m1", mkRat 1 10, false, false⟩, ⟨"m2", mkRat 1 5, true, false⟩]

/-- Fifteen distinct general-query candidates, all above the threshold. -/
def c4GenResults : List RMatch :=
  [⟨"a01", mkRat 90 100, false, false⟩, ⟨"a02", mkRat 89 100, false, false⟩,
   ⟨"a03", mkRat 88 100, false, false⟩, ⟨"a04", mkRat 87 100, false, false⟩,
   ⟨"a05", mkRat 86 100, false, false⟩, ⟨"a06", mkRat 85 100, false, false⟩,
   ⟨"a07", mkRat 84 100, false, false⟩, ⟨"a08", mkRat 83 100, false, false⟩,
   ⟨"a09", mkRat 82 100, false, false⟩, ⟨"a10", mkRat 81 100, false, false⟩,
   ⟨"a11", mkRat 80 100, false, false⟩, ⟨"a12", mkRat 79 100, false, false⟩,
   ⟨"a13", mkRat 78 100, false, false⟩, ⟨"a14", mkRat 77 100, false, false⟩,
   ⟨"a15", mkRat 76 100, false, false⟩]

/-- A profile-flagged candidate below the threshold. -/
def c4ProfileMatch : RMatch := ⟨"p", mkRat 1 10, true, false⟩

/-- One above-threshold general candidate (witness input). -/
def c4WitnessGen : List RMatch := [⟨"g", mkRat 9 10, false, false⟩]

/-- The below-threshold profile candidate of the witness input. -/
def c4WitnessProfMatch : RMatch := ⟨"q", mkRat 1 10, true, false⟩

/-- One below-threshold profile candidate (witness input). -/
def c4WitnessProf : List RMatch := [c4WitnessProfMatch]

/-- A profile-flagged match the unfiltered retry would return. -/
def c5RetryMatch : RMatch := ⟨"p", mkRat 1 2, true, false⟩

/-- Three ingestion jobs, enqueued in order. -/
def c6JobA : EmbedJob := ⟨"u", "chat", "m1", "user", "first message", none⟩

def c6JobB : EmbedJob := ⟨"u", "chat", "m2", "assistant", "second message", none⟩

def c6JobC : EmbedJob := ⟨"u", "chat", "m3", "user", "third message", none⟩

/-- A processing oracle under which job `m2` fails and the others succeed. -/
def c6eff : EmbedJob → Bool := fun j => j.messageId != "m2"

/-- The drained queue state after the three jobs were enqueued and
processed in order. -/
def c6Final : QueueSt :=
  ⟨[], false,
    [(c6JobA, c6eff c6JobA), (c6JobB, c6eff c6JobB), (c6JobC, c6eff c6JobC)],
    [c6JobA, c6JobB, c6JobC]⟩

/-- An ingestion job whose text produced the two chunks below. -/
def c7Job : EmbedJob := ⟨"u1", "chat1", "m1", "user", "c1 c2", none⟩

/-- An embedder that throws on chunk `c1` and embeds `c2` fine. -/
def c7Emb : String → EmbedOutcome :=
  fun c => if c = "c1" then .fail else .ok [1]

/-- An embedder returning an empty embedding for chunk `a`. -/
def c7EmbW : String → EmbedOutcome :=
  fun c => if c = "a" then .ok [] else .ok [1]

/-- A turn whose first model call is outstanding: controller registered,
signal not yet aborted, the user message already appended. -/
def c9Start : TurnSt :=
  ⟨TurnPhase.calling, false, true, [⟨Role.user, "hello", none⟩], []⟩

/-- A turn on the tool path whose **summary** model call is outstanding:
controller still registered, signal not aborted, the narration and the
tool messages already appended and the narration chunk already
broadcast. -/
def c9SummaryStart : TurnSt :=
  ⟨TurnPhase.summarizing, false, true,
    [⟨Role.user, "find publishers in tech", none⟩,
     ⟨Role.assistant, "Searching publishers now", none⟩,
     ⟨Role.function, "result", some "browsePublishers"⟩],
    ["Searching publishers now"]⟩

/-- The summary call response: one narration part. -/
def c9SummaryParts : List RespPart :=
  [⟨some "Here are the results", none⟩]

/-- Where the turn ends when the summary call resolves after a cancel. -/
def c9SummaryDone : TurnSt :=
  { cancelTurn c9SummaryStart with
    phase := TurnPhase.done false
    streamed := (cancelTurn c9SummaryStart).streamed ++
      streamedOfParts c9SummaryParts
    history := (cancelTurn c9SummaryStart).history ++
      summaryHistoryOfParts c9SummaryParts }

/-- A tool environment for dispatching an unknown tool name. -/
def c10Env : ToolEnv :=
  ⟨.error "down", none, none, ⟨"x", 1, 1⟩, []⟩

/-! ## Supporting lemmas and claim theorems -/

theorem alookup_aset_self {α : Type} (m : List (String × α)) (k : String) (v : α) :
    alookup (aset m k v) k = some v := by
  induction m with
  | nil => simp [aset, alookup]
  | cons kv rest ih =>
      obtain ⟨k', v'⟩ := kv
      by_cases h : k' = k
      · simp [aset, alookup, h]
      · simp [aset, alookup, h, ih]

theorem alookup_aset_ne {α : Type} (m : List (String × α)) (k k' : String) (v : α)
    (h : k' ≠ k) : alookup (aset m k v) k' = alookup m k' := by
  have hks : ¬ k = k' := fun hh => h hh.symm
  induction m with
  | nil => simp [aset, alookup, hks]
  | cons kv rest ih =>
      obtain ⟨k₀, v₀⟩ := kv
      by_cases h₀ : k₀ = k
      · subst h₀
        simp [aset, alookup, hks]
      · simp only [aset, if_neg h₀, alookup]
        by_cases h₁ : k₀ = k'
        · simp [h₁]
        · simp [h₁, ih]

theorem alookup_adelete_self {α : Type} (m : List (String × α)) (k : String) :
    alookup (adelete m k) k = none := by
  induction m with
  | nil => simp [adelete, alookup]
  | cons kv rest ih =>
      obtain ⟨k', v'⟩ := kv
      by_cases h : k' = k
      · simpa [adelete, h] using ih
      · simpa [adelete, alookup, h] using ih

theorem alookup_adelete_ne {α : Type} (m : List (String × α)) (k k' : String)
    (h : k' ≠ k) : alookup (adelete m k) k' = alookup m k' := by
  induction m with
  | nil => simp [adelete]
  | cons kv rest ih =>
      obtain ⟨k₀, v₀⟩ := kv
      by_cases h₀ : k₀ = k
      · subst h₀
        have hks : ¬ k₀ = k' := fun hh => h hh.symm
        simp only [adelete, if_pos rfl, alookup, if_neg hks]
        exact ih
      · by_cases h₁ : k₀ = k'
        · subst h₁
          simp [adelete, alookup, h]
        · simp only [adelete, if_neg h₀, alookup, if_neg h₁]
          exact ih

/-! ## Session/Room registry (`WebSocketServer`, src/websocket/server.ts)

State of the class: `clients` maps addresses to the set of rooms the
connection joined, `rooms` maps room ids to member address sets, and
`roomUsers` is the `Map<chatId, userId>` owning-user registry. -/


theorem removeFromRoom_lookup_ne (rooms : List (String × List String))
    (roomId address r : String) (h : r ≠ roomId) :
    alookup (removeFromRoom rooms roomId address) r = alookup rooms r := by
  unfold removeFromRoom
  cases hm : alookup rooms roomId with
  | none => rfl
  | some members =>
      by_cases he : members.erase address = []
      · simp [he, alookup_adelete_ne _ _ _ h]
      · simp [he, alookup_aset_ne _ _ _ _ h]

theorem removeFromRoom_lookup_self (rooms : List (String × List String))
    (roomId address : String) (members : List String)
    (hm : alookup rooms roomId = some members) :
    alookup (removeFromRoom rooms roomId address) roomId =
      (if members.erase address = [] then none
       else some (members.erase address)) := by
  unfold removeFromRoom
  rw [hm]
  by_cases he : members.erase address = []
  · simp [he, alookup_adelete_self]
  · simp [he, alookup_aset_self]

theorem foldl_removeFromRoom_not_mem (l : List String)
    (rooms : List (String × List String)) (address r : String)
    (h : r ∉ l) :
    alookup (l.foldl (fun rs roomId => removeFromRoom rs roomId address) rooms) r
      = alookup rooms r := by
  induction l generalizing rooms with
  | nil => rfl
  | cons x rest ih =>
      have hx : r ≠ x := fun hh => h (hh ▸ List.mem_cons_self x rest)
      have hrest : r ∉ rest := fun hh => h (List.mem_cons_of_mem x hh)
      simp only [List.foldl_cons]
      rw [ih _ hrest, removeFromRoom_lookup_ne _ _ _ _ hx]


theorem joinRoom_roomUsers (s : ServerState) (a r : String) :
    (joinRoom s a r).roomUsers = s.roomUsers := by
  unfold joinRoom
  cases alookup s.clients a <;> rfl

/-- C1, counterexample: the owning-user identity is **not** stable under
joins.  After `JoinChat(room1, alice)`, a later `JoinChat(room1, bob)` for
the same room overwrites the recorded identity with `bob`
(server.ts:102-104 sets unconditionally). -/
theorem c1_counterexample :
    alookup
      ((handleJoinChat
          (handleJoinChat ⟨[("addr", [])], [], []⟩ "addr" "room1" (some "alice"))
          "addr" "room1" (some "bob")).roomUsers)
      "room1" = some "bob" ∧ ("bob" : String) ≠ "alice" := by
  exact ⟨by decide, by decide⟩

/-- C1, amended: once a user id is recorded for a room, a later **chat
message** with any user id leaves the registry unchanged (the
`handleChatMessage` path is first-wins), but a later **join** carrying a
truthy user id replaces the recorded identity with the new id. -/
theorem c1_owner_amended (s : ServerState) (a chatId u : String)
    (newId : Option String) (h : alookup s.roomUsers chatId = some u) :
    (chatAssociateOwner s chatId newId).roomUsers = s.roomUsers ∧
    (∀ v : String, v ≠ "" →
      alookup (handleJoinChat s a chatId (some v)).roomUsers chatId = some v) := by
  constructor
  · unfold chatAssociateOwner
    rw [h]
    simp
  · intro v hv
    unfold handleJoinChat
    have ht : strTruthy (some v) = true := by simp [strTruthy, hv]
    rw [ht]
    simp only [if_true]
    rw [joinRoom_roomUsers]
    exact alookup_aset_self _ _ _

theorem c1_owner_amended_witness :
    alookup c1WitnessState.roomUsers "room1" = some "alice" ∧
    ((chatAssociateOwner c1WitnessState "room1" (some "bob")).roomUsers =
        c1WitnessState.roomUsers ∧
      (∀ v : String, v ≠ "" →
        alookup (handleJoinChat c1WitnessState "addr" "room1" (some v)).roomUsers
          "room1" = some v)) :=
  ⟨by decide, c1_owner_amended c1WitnessState "addr" "room1" "alice" (some "bob")
    (by decide)⟩

/-- C2, counterexample: after the only member of `room1` disconnects, the
room's entry is **gone** from the room map (`delete this.rooms[roomId]`,
server.ts:204-206), not present with an empty member set. -/
theorem c2_counterexample :
    alookup ((cleanup ⟨[("addr", ["room1"])], [("room1", ["addr"])], []⟩
        "addr").rooms) "room1" = none := by
  decide

theorem foldl_removeFromRoom_mem (crs : List String)
    (rooms : List (String × List String)) (a r : String) (mem : List String)
    (hnd : crs.Nodup) (hr : r ∈ crs) (hm : alookup rooms r = some mem) :
    alookup (crs.foldl (fun rs roomId => removeFromRoom rs roomId a) rooms) r =
      (if mem.erase a = [] then none else some (mem.erase a)) := by
  induction crs generalizing rooms with
  | nil => cases hr
  | cons x rest ih =>
      have hnd' : rest.Nodup := hnd.of_cons
      rcases List.mem_cons.mp hr with hrx | hrr
      · subst hrx
        have hxnot : r ∉ rest := (List.nodup_cons.mp hnd).1
        simp only [List.foldl_cons]
        rw [foldl_removeFromRoom_not_mem _ _ _ _ hxnot]
        exact removeFromRoom_lookup_self rooms r a mem hm
      · have hxr : r ≠ x := fun hh => (List.nodup_cons.mp hnd).1 (hh ▸ hrr)
        simp only [List.foldl_cons]
        exact ih _ hnd' hrr
          (by rw [removeFromRoom_lookup_ne _ _ _ _ hxr]; exact hm)

/-- C2, amended: on disconnect the connection is removed from every room
in its (duplicate-free) room set; a room whose member set becomes empty is
**deleted** from the room map (it is recreated fresh on a later join),
while a room keeping members stays present with the connection removed. -/
theorem c2_cleanup_amended (s : ServerState) (a r : String)
    (crs : List String) (mem : List String)
    (hc : alookup s.clients a = some crs) (hnd : crs.Nodup) (hr : r ∈ crs)
    (hm : alookup s.rooms r = some mem) :
    alookup (cleanup s a).rooms r =
      (if mem.erase a = [] then none else some (mem.erase a)) := by
  unfold cleanup
  rw [hc]
  exact foldl_removeFromRoom_mem crs s.rooms a r mem hnd hr hm

theorem c2_cleanup_amended_witness :
    alookup c2WitnessState.clients "addr" = some ["room1"] ∧
    (["room1"] : List String).Nodup ∧ "room1" ∈ (["room1"] : List String) ∧
    alookup c2WitnessState.rooms "room1" = some ["addr", "bob"] ∧
    alookup (cleanup c2WitnessState "addr").rooms "room1" =
      (if (["addr", "bob"] : List String).erase "addr" = [] then none
       else some ((["addr", "bob"] : List String).erase "addr")) :=
  ⟨by decide, by decide, by decide, by decide,
    c2_cleanup_amended c2WitnessState "addr" "room1" ["room1"] ["addr", "bob"]
      (by decide) (by decide) (by decide) (by decide)⟩

/-- C5, counterexample: when the profile-filtered query fails, the code's
profile pass contributes nothing (`catch {}` keeps `profileResults = []`),
whereas the claimed retry-without-filter with in-process filtering would
yield the profile-flagged match — the turn does **not** receive the
retry's candidates. -/
theorem c5_counterexample :
    profileQueryPass (Except.error ()) = [] ∧
    profileQueryPassSpec (Except.error ()) [c5RetryMatch] = [c5RetryMatch] ∧
    ([] : List RMatch) ≠ [c5RetryMatch] := by
  exact ⟨rfl, by decide, by decide⟩

/-- C5, amended: a failure of the profile-filtered query is swallowed —
the profile pass yields the empty candidate list, no retry is issued, and
the turn's final retrieved set is exactly the one computed from the
general query's results alone. -/
theorem c5_failure_swallowed (e : Unit) (results : List RMatch) :
    profileQueryPass (Except.error e) = [] ∧
    finalRetrievedList results (profileQueryPass (Except.error e)) =
      finalRetrievedList results [] :=
  ⟨rfl, rfl⟩

/-- C7, counterexample: with an embedder that **throws** on chunk `c1`
(as `EmbeddingService.embed` does on an axios failure) while chunk `c2`
would embed fine, the job's processing aborts and nothing at all is
upserted — the remaining chunk is not embedded, contradicting the claim
that the failed chunk is skipped while the rest form the job's batch. -/
theorem c7_counterexample :
    chunksUpsert c7Emb c7Job "t0" ["c1", "c2"] = none ∧
    c7Emb "c2" = EmbedOutcome.ok [1] ∧
    (∀ vs : List PineVec, chunksUpsert c7Emb c7Job "t0" ["c1", "c2"] ≠ some vs) := by
  refine ⟨rfl, rfl, ?_⟩
  intro vs h
  simp [chunksUpsert, processChunks, c7Emb] at h

/-- C7, amended: a chunk whose embedding comes back **empty** is skipped
without retry and the remaining chunks of the job still form its batch
(the loop continues, without advancing the vector index); a chunk whose
embedding call **throws** aborts the whole job — the remaining chunks are
not embedded and no batch is upserted for that job (the drain loop catches
the error and moves on to the next job). -/
theorem c7_empty_skip_fail_abort (emb : String → EmbedOutcome)
    (job : EmbedJob) (now : String) (chunk : String) (rest : List String)
    (index : Nat) :
    (emb chunk = EmbedOutcome.ok [] →
      processChunks emb job now (chunk :: rest) index =
        processChunks emb job now rest index) ∧
    (emb chunk = EmbedOutcome.fail →
      processChunks emb job now (chunk :: rest) index = Except.error ()) := by
  constructor <;> intro h <;> simp [processChunks, h]

theorem c7_empty_skip_fail_abort_witness :
    (c7EmbW "a" = EmbedOutcome.ok [] ∧
      processChunks c7EmbW c7Job "t0" ["a"] 0 =
        processChunks c7EmbW c7Job "t0" [] 0) ∧
    (c7Emb "c1" = EmbedOutcome.fail ∧
      processChunks c7Emb c7Job "t0" ["c1"] 0 = Except.error ()) :=
  ⟨⟨rfl, (c7_empty_skip_fail_abort c7EmbW c7Job "t0" "a" [] 0).1 rfl⟩,
    ⟨rfl, (c7_empty_skip_fail_abort c7Emb c7Job "t0" "c1" [] 0).2 rfl⟩⟩

/-- C9, amended: if `stop_generation` arrives for a room while that
room's **first (analysis)** model call — the only call that carries the
abort signal — is outstanding, then whatever happens next, the call can
only complete as **aborted** (`done true` — the cancellation failure), no
`TextStream` chunk of this attempt is broadcast beyond those already
sent, and the room's history is exactly what it was when the cancellation
hit: appends already made are not undone.  (The summary call carries no
signal and is not stopped by `cancel` — see the counterexample.) -/
theorem c9_cancel_aborts (s s' : TurnSt)
    (hphase : s.phase = TurnPhase.calling) (hmap : s.mapHasCtrl = true)
    (hstep : TurnStep (cancelTurn s) s') :
    s'.streamed = s.streamed ∧ s'.history = s.history ∧
    (∀ b, s'.phase = TurnPhase.done b → b = true) := by
  have habort : (cancelTurn s).ctrlAborted = true := by
    simp [cancelTurn, hmap]
  have hfields : ∀ t : TurnSt, (cancelTurn t).streamed = t.streamed ∧
      (cancelTurn t).history = t.history ∧ (cancelTurn t).phase = t.phase := by
    intro t
    unfold cancelTurn
    by_cases h : t.mapHasCtrl <;> simp [h]
  cases hstep with
  | stopGen =>
      refine ⟨?_, ?_, ?_⟩
      · rw [(hfields _).1, (hfields _).1]
      · rw [(hfields _).2.1, (hfields _).2.1]
      · intro b hb
        rw [(hfields _).2.2, (hfields _).2.2, hphase] at hb
        cases hb
  | resolveOkNoTool parts hp ha hnotool =>
      rw [habort] at ha
      cases ha
  | resolveOkTool parts fnName fnArgs toolResultStr hp ha hfn =>
      rw [habort] at ha
      cases ha
  | resolveAborted hp ha =>
      refine ⟨(hfields s).1, (hfields s).2.1, ?_⟩
      intro b hb
      cases hb
      rfl
  | resolveSummary parts hp =>
      rw [(hfields s).2.2, hphase] at hp
      cases hp

theorem c9_cancel_aborts_witness :
    c9Start.phase = TurnPhase.calling ∧ c9Start.mapHasCtrl = true ∧
    TurnStep (cancelTurn c9Start)
      { cancelTurn c9Start with phase := TurnPhase.done true } ∧
    ({ cancelTurn c9Start with phase := TurnPhase.done true }.streamed =
        c9Start.streamed ∧
      { cancelTurn c9Start with phase := TurnPhase.done true }.history =
        c9Start.history ∧
      (∀ b, ({ cancelTurn c9Start with
          phase := TurnPhase.done true }.phase = TurnPhase.done b) → b = true)) := by
  have hstep : TurnStep (cancelTurn c9Start)
      { cancelTurn c9Start with phase := TurnPhase.done true } :=
    TurnStep.resolveAborted (cancelTurn c9Start) rfl rfl
  exact ⟨rfl, rfl, hstep, c9_cancel_aborts c9Start _ rfl rfl hstep⟩

theorem streamChunksAux_ne_nil (ws : List String) (h : ws ≠ []) :
    streamChunksAux ws ≠ [] := by
  unfold streamChunksAux
  rw [if_neg h]
  exact List.cons_ne_nil _ _

/-- C9, counterexample: `stop_generation` received while the turn's
**summary** model call (service.ts:507-511) is outstanding neither fails
that call nor stops its chunks: after `cancel` runs (the controller's
signal is aborted and removed), the summary call — issued without any
abort signal — still resolves normally (`done false`, no cancellation
indicator) and further `TextStream` chunks are broadcast. -/
theorem c9_counterexample :
    TurnStep (cancelTurn c9SummaryStart) c9SummaryDone ∧
    (cancelTurn c9SummaryStart).ctrlAborted = true ∧
    c9SummaryDone.phase = TurnPhase.done false ∧
    c9SummaryDone.streamed ≠ (cancelTurn c9SummaryStart).streamed := by
  refine ⟨TurnStep.resolveSummary (cancelTurn c9SummaryStart) c9SummaryParts
    rfl, rfl, rfl, ?_⟩
  have hcond : ¬ (jsTrim "Here are the results" = "") := by decide
  have hsplit : splitOnSpace "Here are the results" ≠ [] := by decide
  have hne : streamedOfParts c9SummaryParts ≠ [] := by
    simp only [c9SummaryParts, streamedOfParts, List.flatMap_cons,
      List.flatMap_nil, List.append_nil]
    rw [if_neg hcond]
    unfold streamChunksOf
    exact streamChunksAux_ne_nil _ hsplit
  intro h
  have hlen := congrArg List.length h
  rw [c9SummaryDone, List.length_append] at hlen
  have hex : (streamedOfParts c9SummaryParts).length = 0 := by omega
  exact hne (List.length_eq_zero.mp hex)

/-- C10: dispatching any tool name outside the four handled cases does not
throw — it returns the structured unknown-function error value with
`error: true` and the offending name, and the summary step embeds that
value in the standard "The … function returned: …" user message exactly
like any other tool result. -/
theorem c10_unknown_tool (name : String) (env : ToolEnv)
    (h : name ∉ (["browsePublishers", "viewCart", "addToCart",
      "processPayment"] : List String)) :
    executeFunction name env =
      ToolResult.toolError
        ⟨true, name, "Unknown function: " ++ name,
          "This function is not available in the system."⟩ ∧
    summaryUserMessage name (executeFunction name env) =
      ⟨Role.user,
        "The " ++ name ++ " function returned: " ++
          renderToolResult
            (ToolResult.toolError
              ⟨true, name, "Unknown function: " ++ name,
                "This function is not available in the system."⟩) ++
          ". Please summarize the results.",
        none⟩ := by
  have h1 : ¬ name = "browsePublishers" := fun hh => h (by rw [hh]; simp)
  have h2 : ¬ name = "viewCart" := fun hh => h (by rw [hh]; simp)
  have h3 : ¬ name = "addToCart" := fun hh => h (by rw [hh]; simp)
  have h4 : ¬ name = "processPayment" := fun hh => h (by rw [hh]; simp)
  have he : executeFunction name env =
      ToolResult.toolError
        ⟨true, name, "Unknown function: " ++ name,
          "This function is not available in the system."⟩ := by
    unfold executeFunction
    rw [if_neg h1, if_neg h2, if_neg h3, if_neg h4]
  exact ⟨he, by rw [summaryUserMessage, he]⟩

theorem c10_unknown_tool_witness :
    ("getPublisherDetails" ∉ (["browsePublishers", "viewCart", "addToCart",
        "processPayment"] : List String)) ∧
    (executeFunction "getPublisherDetails" c10Env =
        ToolResult.toolError
          ⟨true, "getPublisherDetails",
            "Unknown function: " ++ "getPublisherDetails",
            "This function is not available in the system."⟩ ∧
      summaryUserMessage "getPublisherDetails"
          (executeFunction "getPublisherDetails" c10Env) =
        ⟨Role.user,
          "The " ++ "getPublisherDetails" ++ " function returned: " ++
            renderToolResult
              (ToolResult.toolError
                ⟨true, "getPublisherDetails",
                  "Unknown function: " ++ "getPublisherDetails",
                  "This function is not available in the system."⟩) ++
            ". Please summarize the results.",
          none⟩) :=
  ⟨by decide, c10_unknown_tool "getPublisherDetails" c10Env (by decide)⟩

theorem length_insertByScoreDesc (x : RMatch) (l : List RMatch) :
    (insertByScoreDesc x l).length = l.length + 1 := by
  induction l with
  | nil => rfl
  | cons y ys ih =>
      unfold insertByScoreDesc
      by_cases h : y.score ≤ x.score
      · simp [h]
      · simp [h, ih]

theorem length_sortByScoreDesc (l : List RMatch) :
    (sortByScoreDesc l).length = l.length := by
  induction l with
  | nil => rfl
  | cons x xs ih =>
      unfold sortByScoreDesc
      rw [length_insertByScoreDesc, ih]
      rfl

/-- C3: when every deduplicated candidate scores below the 0.3 threshold
but candidates exist, the assembler's `filtered` set is the top 3 by score
(the whole candidate set when there are fewer than 3) — and with no
candidates at all it is empty. -/
theorem c3_threshold_fallback (deduped : List RMatch)
    (hbelow : ∀ r ∈ deduped, r.score < ragThreshold) :
    filteredWithFallback deduped = (sortByScoreDesc deduped).take 3 ∧
    filteredWithFallback [] = [] := by
  constructor
  · have hf : thresholdFiltered deduped = [] := by
      unfold thresholdFiltered
      rw [List.filter_eq_nil_iff]
      intro r hr
      simp only [decide_eq_true_eq, not_le]
      exact hbelow r hr
    unfold filteredWithFallback
    rw [hf]
    simp only [List.length_nil, Nat.zero_lt_succ, if_true]
    rcases Nat.le_total deduped.length 3 with hle | hge
    · rw [Nat.min_eq_right hle,
        List.take_of_length_le (by rw [length_sortByScoreDesc]),
        List.take_of_length_le (by rw [length_sortByScoreDesc]; exact hle)]
    · rw [Nat.min_eq_left hge]
  · rfl

theorem c3_threshold_fallback_witness :
    (∀ r ∈ c3WitnessDeduped, r.score < ragThreshold) ∧
    (filteredWithFallback c3WitnessDeduped =
        (sortByScoreDesc c3WitnessDeduped).take 3 ∧
      filteredWithFallback [] = []) :=
  ⟨by decide, c3_threshold_fallback c3WitnessDeduped (by decide)⟩

/-- C6: in every reachable queue state — for **every** per-job outcome
oracle `eff`, so in particular when some job's processing fails — the jobs
processed so far, in processing order, followed by the jobs still
buffered, are exactly the jobs ever enqueued, in enqueue order: the single
drain loop (`running` is one flag; `processOne` is the only step that
processes) takes jobs strictly in enqueue order, never reorders, and a
failed job still leaves every later job in place to be attempted; once the
buffer drains, every enqueued job has been attempted in order. -/
theorem c6_queue_fifo (eff : EmbedJob → Bool) (s : QueueSt)
    (h : QueueReach eff s) :
    (s.processed.map Prod.fst) ++ s.queue = s.enqueued ∧
    (s.queue = [] → s.processed.map Prod.fst = s.enqueued) := by
  have hinv : (s.processed.map Prod.fst) ++ s.queue = s.enqueued := by
    induction h with
    | refl => rfl
    | tail hreach hstep ih =>
        cases hstep with
        | enqueue j =>
            dsimp only
            rw [← List.append_assoc, ih]
        | processOne j rest hq hr =>
            dsimp only
            rw [List.map_append]
            dsimp only [List.map_cons, List.map_nil]
            rw [List.append_assoc, List.singleton_append, ← hq, ih]
        | drainDone hq hr =>
            dsimp only
            rw [List.append_nil]
            rw [hq, List.append_nil] at ih
            exact ih
  exact ⟨hinv, fun hq => by rw [← hinv, hq, List.append_nil]⟩

theorem c6_queue_fifo_witness :
    c6eff c6JobB = false ∧
    ((c6Final.processed.map Prod.fst) ++ c6Final.queue = c6Final.enqueued ∧
      (c6Final.queue = [] → c6Final.processed.map Prod.fst = c6Final.enqueued)) := by
  have hreach : QueueReach c6eff c6Final :=
    Relation.ReflTransGen.tail
      (Relation.ReflTransGen.tail
        (Relation.ReflTransGen.tail
          (Relation.ReflTransGen.tail
            (Relation.ReflTransGen.tail
              (Relation.ReflTransGen.tail
                (Relation.ReflTransGen.single
                  (QueueStep.enqueue queueInit c6JobA))
                (QueueStep.enqueue _ c6JobB))
              (QueueStep.enqueue _ c6JobC))
            (QueueStep.processOne _ c6JobA [c6JobB, c6JobC] rfl rfl))
          (QueueStep.processOne _ c6JobB [c6JobC] rfl rfl))
        (QueueStep.processOne _ c6JobC [] rfl rfl))
      (QueueStep.drainDone _ rfl rfl)
  exact ⟨by decide, c6_queue_fifo c6eff c6Final hreach⟩

/-- Correctness of the regex-test embedding: the scanner finds a match iff
some alternative occurs as a `\\b`-delimited segment. -/
theorem wordListMatch_iff (kws : List (List Char)) (cs : List Char) :
    wordListMatch kws cs = true ↔ ∃ kw ∈ kws, KeywordOccursIn kw cs := by
  have hh : ∀ l : List Char, l.head? = l.get? 0 := fun l => by cases l <;> rfl
  unfold wordListMatch
  rw [List.any_eq_true]
  constructor
  · rintro ⟨i, hi, hany⟩
    rw [List.any_eq_true] at hany
    obtain ⟨kw, hkw, hmatch⟩ := hany
    unfold matchKeywordAt at hmatch
    rw [Bool.and_eq_true, Bool.and_eq_true] at hmatch
    obtain ⟨⟨htake, hbefore⟩, hafter⟩ := hmatch
    have htake' : (cs.drop i).take kw.length = kw := of_decide_eq_true htake
    have hiLen : i ≤ cs.length := Nat.lt_succ_iff.mp (List.mem_range.mp hi)
    refine ⟨kw, hkw, cs.take i, (cs.drop i).drop kw.length, ?_, ?_, ?_⟩
    · calc cs = cs.take i ++ cs.drop i := (List.take_append_drop i cs).symm
        _ = cs.take i ++
              ((cs.drop i).take kw.length ++ (cs.drop i).drop kw.length) := by
            rw [List.take_append_drop kw.length (cs.drop i)]
        _ = cs.take i ++ (kw ++ (cs.drop i).drop kw.length) := by rw [htake']
        _ = cs.take i ++ kw ++ (cs.drop i).drop kw.length :=
            (List.append_assoc _ _ _).symm
    · intro c hc
      by_cases hi0 : i = 0
      · subst hi0
        simp at hc
      · rw [if_neg hi0] at hbefore
        have hlen : (cs.take i).length = i := by
          rw [List.length_take]
          exact Nat.min_eq_left hiLen
        have hlast : (cs.take i).getLast? = cs.get? (i - 1) := by
          rw [List.getLast?_eq_get?, hlen]
          exact List.get?_take (Nat.sub_lt (Nat.pos_of_ne_zero hi0) Nat.one_pos)
        rw [hlast] at hc
        rw [hc] at hbefore
        simpa [boundaryOk] using hbefore
    · intro c hc
      have hhead : ((cs.drop i).drop kw.length).head? = cs.get? (i + kw.length) := by
        rw [List.drop_drop, hh, List.get?_drop, Nat.add_zero]
      rw [hhead] at hc
      rw [hc] at hafter
      simpa [boundaryOk] using hafter
  · rintro ⟨kw, hkw, pre, post, hcs, hpre, hpost⟩
    have hcs' : cs = pre ++ (kw ++ post) := by rw [hcs, List.append_assoc]
    refine ⟨pre.length, ?_, ?_⟩
    · rw [List.mem_range, hcs]
      simp only [List.length_append]
      omega
    · rw [List.any_eq_true]
      refine ⟨kw, hkw, ?_⟩
      unfold matchKeywordAt
      rw [Bool.and_eq_true, Bool.and_eq_true]
      refine ⟨⟨?_, ?_⟩, ?_⟩
      · apply decide_eq_true
        have hdl : cs.drop pre.length = kw ++ post := by
          rw [hcs']
          exact List.drop_left pre (kw ++ post)
        rw [hdl]
        exact List.take_left kw post
      · by_cases h0 : pre.length = 0
        · rw [if_pos h0]
        · rw [if_neg h0]
          have hget : cs.get? (pre.length - 1) = pre.getLast? := by
            rw [hcs', List.getLast?_eq_get?]
            exact List.get?_append
              (Nat.sub_lt (Nat.pos_of_ne_zero h0) Nat.one_pos)
          rw [hget]
          cases hl : pre.getLast? with
          | none => rfl
          | some c => simp [boundaryOk, hpre c hl]
      · have hget : cs.get? (pre.length + kw.length) = post.head? := by
          rw [hcs,
            List.get?_append_right (le_of_eq (List.length_append pre kw)),
            List.length_append, Nat.sub_self, hh]
        rw [hget]
        cases hl : post.head? with
        | none => rfl
        | some c => simp [boundaryOk, hpost c hl]

/-- C8: tools are disabled for the first model call exactly when a
document-task keyword occurs `\b`-delimited in the lower-cased message
content, or the message carries a non-empty selected-documents array;
otherwise they are enabled. -/
theorem c8_tool_gating (content : String)
    (selectedDocuments : Option (List String)) :
    shouldUseFunctions content selectedDocuments = false ↔
      ((∃ kw ∈ docTaskKeywords, KeywordOccursIn kw (lowerChars content)) ∨
        (∃ l, selectedDocuments = some l ∧ l ≠ [])) := by
  unfold shouldUseFunctions looksLikeDocTask
  rw [Bool.not_eq_false', Bool.or_eq_true]
  constructor
  · rintro (hdoc | hsel)
    · exact Or.inl ((wordListMatch_iff _ _).mp hdoc)
    · right
      unfold hasSelectedDocs at hsel
      cases hsd : selectedDocuments with
      | none => rw [hsd] at hsel; cases hsel
      | some l =>
          rw [hsd] at hsel
          exact ⟨l, rfl, List.length_pos.mp (of_decide_eq_true hsel)⟩
  · rintro (hdoc | ⟨l, hl, hne⟩)
    · exact Or.inl ((wordListMatch_iff _ _).mpr hdoc)
    · right
      rw [hl]
      unfold hasSelectedDocs
      exact decide_eq_true (List.length_pos.mpr hne)

theorem perm_insertByScoreDesc (x : RMatch) (l : List RMatch) :
    List.Perm (insertByScoreDesc x l) (x :: l) := by
  induction l with
  | nil => exact List.Perm.refl _
  | cons y ys ih =>
      unfold insertByScoreDesc
      by_cases h : y.score ≤ x.score
      · rw [if_pos h]
      · rw [if_neg h]
        exact List.Perm.trans (List.Perm.cons y ih) (List.Perm.swap x y ys)

theorem perm_sortByScoreDesc (l : List RMatch) :
    List.Perm (sortByScoreDesc l) l := by
  induction l with
  | nil => exact List.Perm.refl _
  | cons x xs ih =>
      exact List.Perm.trans (perm_insertByScoreDesc x (sortByScoreDesc xs))
        (List.Perm.cons x ih)

theorem aset_pred {α : Type} (P : String × α → Prop) (m : List (String × α))
    (k : String) (v : α) (hm : ∀ kv ∈ m, P kv) (hv : P (k, v)) :
    ∀ kv ∈ aset m k v, P kv := by
  induction m with
  | nil =>
      intro kv hkv
      rw [List.mem_singleton.mp hkv]
      exact hv
  | cons kv₀ rest ih =>
      obtain ⟨k₀, v₀⟩ := kv₀
      intro kv hkv
      unfold aset at hkv
      by_cases h : k₀ = k
      · rw [if_pos h] at hkv
        rcases List.mem_cons.mp hkv with h1 | h1
        · exact h1 ▸ hv
        · exact hm kv (List.mem_cons_of_mem _ h1)
      · rw [if_neg h] at hkv
        rcases List.mem_cons.mp hkv with h1 | h1
        · exact hm kv (h1 ▸ List.mem_cons_self _ _)
        · exact ih (fun kv' hkv' => hm kv' (List.mem_cons_of_mem _ hkv')) kv h1

theorem mem_keys_aset {α : Type} (m : List (String × α)) (k : String) (v : α)
    (k' : String) (h : k' ∈ (aset m k v).map Prod.fst) :
    k' ∈ m.map Prod.fst ∨ k' = k := by
  induction m with
  | nil =>
      simp only [aset, List.map_cons, List.map_nil, List.mem_singleton] at h
      exact Or.inr h
  | cons kv₀ rest ih =>
      obtain ⟨k₀, v₀⟩ := kv₀
      unfold aset at h
      by_cases hk : k₀ = k
      · rw [if_pos hk] at h
        simp only [List.map_cons, List.mem_cons] at h ⊢
        rcases h with h | h
        · exact Or.inr h
        · exact Or.inl (Or.inr h)
      · rw [if_neg hk] at h
        simp only [List.map_cons, List.mem_cons] at h ⊢
        rcases h with h | h
        · exact Or.inl (Or.inl h)
        · rcases ih h with h' | h'
          · exact Or.inl (Or.inr h')
          · exact Or.inr h'

theorem aset_keys_nodup {α : Type} (m : List (String × α)) (k : String) (v : α)
    (h : (m.map Prod.fst).Nodup) : ((aset m k v).map Prod.fst).Nodup := by
  induction m with
  | nil => simp [aset]
  | cons kv₀ rest ih =>
      obtain ⟨k₀, v₀⟩ := kv₀
      simp only [List.map_cons, List.nodup_cons] at h
      unfold aset
      by_cases hk : k₀ = k
      · rw [if_pos hk]
        simp only [List.map_cons, List.nodup_cons]
        rw [← hk]
        exact h
      · rw [if_neg hk]
        simp only [List.map_cons, List.nodup_cons]
        refine ⟨?_, ih h.2⟩
        intro hmem
        rcases mem_keys_aset rest k v k₀ hmem with h' | h'
        · exact h.1 h'
        · exact hk h'

theorem bestById_aux_inv (l : List RMatch) (init : List (String × RMatch))
    (h : ∀ kv ∈ init, kv.2.id = kv.1) :
    ∀ kv ∈ l.foldl
        (fun m x =>
          match alookup m x.id with
          | none => aset m x.id x
          | some prev => if prev.score < x.score then aset m x.id x else m)
        init,
      kv.2.id = kv.1 := by
  induction l generalizing init with
  | nil => exact h
  | cons x rest ih =>
      intro kv hkv
      simp only [List.foldl_cons] at hkv
      refine ih _ ?_ kv hkv
      cases halk : alookup init x.id with
      | none =>
          simp only [halk]
          exact aset_pred _ init x.id x h rfl
      | some prev =>
          simp only [halk]
          by_cases hs : prev.score < x.score
          · rw [if_pos hs]
            exact aset_pred _ init x.id x h rfl
          · rw [if_neg hs]
            exact h

theorem bestById_aux_keys_nodup (l : List RMatch)
    (init : List (String × RMatch)) (h : (init.map Prod.fst).Nodup) :
    ((l.foldl
        (fun m x =>
          match alookup m x.id with
          | none => aset m x.id x
          | some prev => if prev.score < x.score then aset m x.id x else m)
        init).map Prod.fst).Nodup := by
  induction l generalizing init with
  | nil => exact h
  | cons x rest ih =>
      simp only [List.foldl_cons]
      refine ih _ ?_
      cases halk : alookup init x.id with
      | none =>
          simp only [halk]
          exact aset_keys_nodup init x.id x h
      | some prev =>
          simp only [halk]
          by_cases hs : prev.score < x.score
          · rw [if_pos hs]
            exact aset_keys_nodup init x.id x h
          · rw [if_neg hs]
            exact h

theorem bestById_inv (merged : List RMatch) :
    ∀ kv ∈ bestById merged, kv.2.id = kv.1 :=
  bestById_aux_inv merged [] (by intro kv hkv; cases hkv)

theorem bestById_keys_nodup (merged : List RMatch) :
    ((bestById merged).map Prod.fst).Nodup :=
  bestById_aux_keys_nodup merged [] List.nodup_nil

theorem avalues_map_id (m : List (String × RMatch))
    (h : ∀ kv ∈ m, kv.2.id = kv.1) :
    (avalues m).map RMatch.id = m.map Prod.fst := by
  unfold avalues
  rw [List.map_map]
  exact List.map_congr_left (fun kv hkv => h kv hkv)

theorem dedupe_ids_nodup (merged : List RMatch) :
    ((dedupeById merged).map RMatch.id).Nodup := by
  unfold dedupeById
  rw [avalues_map_id _ (bestById_inv merged)]
  exact bestById_keys_nodup merged

theorem insertAllById_lookup_not_mem (m : List (String × RMatch))
    (l : List RMatch) (k : String) (h : ∀ x ∈ l, x.id ≠ k) :
    alookup (insertAllById m l) k = alookup m k := by
  induction l generalizing m with
  | nil => rfl
  | cons x rest ih =>
      have hstep : insertAllById m (x :: rest) =
          insertAllById (aset m x.id x) rest := rfl
      rw [hstep, ih _ (fun y hy => h y (List.mem_cons_of_mem _ hy)),
        alookup_aset_ne _ _ _ _ (Ne.symm (h x (List.mem_cons_self _ _)))]

theorem insertAllById_lookup_self (m : List (String × RMatch))
    (l : List RMatch) (p : RMatch) (hp : p ∈ l)
    (huniq : ∀ q ∈ l, q.id = p.id → q = p) :
    alookup (insertAllById m l) p.id = some p := by
  induction l generalizing m with
  | nil => cases hp
  | cons x rest ih =>
      have hstep : insertAllById m (x :: rest) =
          insertAllById (aset m x.id x) rest := rfl
      rw [hstep]
      by_cases hpr : p ∈ rest
      · exact ih _ hpr (fun q hq => huniq q (List.mem_cons_of_mem _ hq))
      · have hpx : p = x := by
          rcases List.mem_cons.mp hp with h | h
          · exact h
          · exact absurd h hpr
        have hforall : ∀ q ∈ rest, q.id ≠ p.id := by
          intro q hq heq
          exact hpr ((huniq q (List.mem_cons_of_mem _ hq) heq) ▸ hq)
        rw [insertAllById_lookup_not_mem _ _ _ hforall, hpx,
          alookup_aset_self]

theorem mem_avalues_of_alookup {α : Type} (m : List (String × α))
    (k : String) (v : α) (h : alookup m k = some v) : v ∈ avalues m := by
  induction m with
  | nil => cases h
  | cons kv rest ih =>
      obtain ⟨k₀, v₀⟩ := kv
      unfold alookup at h
      by_cases hk : k₀ = k
      · rw [if_pos hk] at h
        injection h with h
        simp only [avalues, List.map_cons, List.mem_cons]
        exact Or.inl h.symm
      · rw [if_neg hk] at h
        simp only [avalues, List.map_cons, List.mem_cons]
        exact Or.inr (ih h)

theorem mem_filteredWithFallback {x : RMatch} {d : List RMatch}
    (h : x ∈ filteredWithFallback d) : x ∈ d := by
  unfold filteredWithFallback at h
  by_cases hc : (thresholdFiltered d).length < 3
  · rw [if_pos hc] at h
    exact (perm_sortByScoreDesc d).mem_iff.mp (List.mem_of_mem_take h)
  · rw [if_neg hc] at h
    unfold thresholdFiltered at h
    exact List.mem_of_mem_filter h

theorem mem_profileTopFrom {x : RMatch} {d : List RMatch}
    (h : x ∈ profileTopFrom d) : x ∈ d := by
  unfold profileTopFrom at h
  exact List.mem_of_mem_filter
    ((perm_sortByScoreDesc _).mem_iff.mp (List.mem_of_mem_take h))

theorem mem_dedupedCurOf {x : RMatch} {results profileResults : List RMatch}
    (h : x ∈ dedupedCurOf results profileResults) :
    x ∈ dedupedOf results profileResults := by
  unfold dedupedCurOf at h
  by_cases hc :
      (thresholdFiltered (dedupedOf results profileResults)).length < 3
  · rw [if_pos hc] at h
    exact (perm_sortByScoreDesc _).mem_iff.mp h
  · rw [if_neg hc] at h
    exact h

/-- C4, amended: every candidate among the top-3 profile-flagged by score
is always inserted into the merged map, and it is present in the final
set handed to context rendering **whenever that merged map holds at most
15 entries** (in particular whenever fewer than 15 candidates pass the
threshold); with 15 or more preceding entries, the trailing forced
profile facts are cut off by the final `slice(0, topK)`. -/
theorem c4_profile_force_include (results profileResults : List RMatch)
    (p : RMatch) (hp : p ∈ profileTopOf results profileResults)
    (hlen : (finalMapValuesOf results profileResults).length ≤ 15) :
    p ∈ finalRetrievedList results profileResults := by
  have hnodup : ((dedupedOf results profileResults).map RMatch.id).Nodup :=
    dedupe_ids_nodup (results ++ profileResults)
  have hmemd : ∀ q ∈ filteredWithFallback (dedupedOf results profileResults) ++
      profileTopOf results profileResults,
      q ∈ dedupedOf results profileResults := by
    intro q hq
    rcases List.mem_append.mp hq with h | h
    · exact mem_filteredWithFallback h
    · exact mem_dedupedCurOf (mem_profileTopFrom h)
  have hpd : p ∈ dedupedOf results profileResults :=
    mem_dedupedCurOf (mem_profileTopFrom hp)
  have hpl : p ∈ filteredWithFallback (dedupedOf results profileResults) ++
      profileTopOf results profileResults :=
    List.mem_append.mpr (Or.inr hp)
  have huniq : ∀ q ∈ filteredWithFallback (dedupedOf results profileResults) ++
      profileTopOf results profileResults, q.id = p.id → q = p := by
    intro q hq heq
    exact List.inj_on_of_nodup_map hnodup (hmemd q hq) hpd heq
  have hmm : p ∈ finalMapValuesOf results profileResults :=
    mem_avalues_of_alookup _ _ _
      (insertAllById_lookup_self [] _ p hpl huniq)
  unfold finalRetrievedList
  rw [List.take_of_length_le hlen]
  exact hmm

/-- C4, counterexample: with 15 above-threshold general candidates and one
below-threshold profile-flagged candidate, the profile candidate is the
top profile fact (`profileTop = [p]`) yet is **absent** from the final
merged set handed to rendering: the map holds it in position 16 and
`slice(0, 15)` cuts it off. -/
theorem c4_counterexample :
    c4ProfileMatch ∈ profileTopOf c4GenResults [c4ProfileMatch] ∧
    c4ProfileMatch ∉ finalRetrievedList c4GenResults [c4ProfileMatch] := by
  constructor
  · decide
  · decide

theorem c4_profile_force_include_witness :
    c4WitnessProfMatch ∈ profileTopOf c4WitnessGen c4WitnessProf ∧
    (finalMapValuesOf c4WitnessGen c4WitnessProf).length ≤ 15 ∧
    c4WitnessProfMatch ∈ finalRetrievedList c4WitnessGen c4WitnessProf := by
  refine ⟨by decide, by decide,
    c4_profile_force_include c4WitnessGen c4WitnessProf c4WitnessProfMatch
      (by decide) (by decide)⟩

end OmsWs
